import Mathlib

/-!
# Shallow embedding of `src/index.js`

The scraper has three layers, embedded here bottom-up:

* `getTableOperations` (lines 17-52): the fold over the `td` cells of a table,
  together with the regular expression `/(\d+)(.+)/` it uses;
* `processPage` (lines 54-108): locating the target, extracting, and pushing
  the records to the shared store;
* the run loop (lines 110-168): `createPages`, `createPageProcessingPromises`
  and the `while (true)` loop with its `catch` block.

Conventions.  JavaScript strings are `String`s (the regular expression works
on their list of characters).  The Number that `parseInt` returns is a
`JSNumber`: the double nearest to the integer the digits denote.  The page
offsets are natural numbers: `startIndex` starts at 0 and grows by 50 at a
time, and a Number holds such values exactly up to `2 ^ 53`.  A function that
can throw returns an `Except JSError`; a function that mutates the shared store
returns the store next to its result.
-/

set_option autoImplicit false

namespace Bankin

/-! ## Errors -/

deriving instance DecidableEq for Except

/-- The exceptions the program can raise. -/
inductive JSError where
  /-- A `TypeError` raised by the runtime (destructuring `null`, reading a
  property of `undefined`). -/
  | typeError
  /-- The exception made by `new Error(msg)`. -/
  | error (msg : String)
  /-- A rejection coming from the browser (navigation, selector wait, `$eval`). -/
  | browser
  deriving DecidableEq, Repr

/-! ## The regular expression `/(\d+)(.+)/` -/

/-- The class `\d`: the ten ASCII digits. -/
def isDigit (c : Char) : Bool := 48 ≤ c.toNat && c.toNat ≤ 57

/-- The ECMAScript line terminators: LF, CR, LS and PS. -/
def isLineTerminator (c : Char) : Bool :=
  c.toNat == 0x0A || c.toNat == 0x0D || c.toNat == 0x2028 || c.toNat == 0x2029

/-- The class `.` (no `s` flag): every character but a line terminator. -/
def isDot (c : Char) : Bool := !isLineTerminator c

/-- The group `(.+)` at the end of the pattern: greedy, one character at least. -/
def matchDotPlus (s : List Char) : Option (List Char) :=
  match s.takeWhile isDot with
  | [] => none
  | c :: cs => some (c :: cs)

/-- The group `(\d+)` followed by the rest of the pattern, for a digit run of
length `k` available at the start of `s`: the greedy quantifier tries `k`
digits first and backtracks one digit at a time, down to one digit. -/
def matchDigitsThen : Nat → List Char → Option (List Char × List Char)
  | 0, _ => none
  | k + 1, s =>
    match matchDotPlus (s.drop (k + 1)) with
    | some rest => some (s.take (k + 1), rest)
    | none => matchDigitsThen k s

/-- An attempt to match the whole pattern at the start of `s`. -/
def matchAt (s : List Char) : Option (List Char × List Char) :=
  matchDigitsThen (s.takeWhile isDigit).length s

/-- The search of an unanchored, non-global regular expression: the pattern is
tried at position 0, then 1, and so on; the first position that matches wins.
The result is the pair of the two capture groups. -/
def regexExec : List Char → Option (List Char × List Char)
  | [] => matchAt []
  | c :: cs =>
    match matchAt (c :: cs) with
    | some r => some r
    | none => regexExec cs

/-- The call `value.match(AMOUNT_REGEX)`, reduced to its two capture groups;
`none` stands for the `null` of a failed match. -/
def amountMatch (value : String) : Option (String × String) :=
  (regexExec value.data).map fun r => (String.mk r.1, String.mk r.2)

/-- The value of one decimal digit. -/
def digitValue (c : Char) : Nat := c.toNat - 48

/-- A Number as `parseInt` can return it: a double that is a non-negative
integer, `Infinity`, or `NaN`. -/
inductive JSNumber where
  | finite (value : Nat)
  | infinity
  | nan
  deriving DecidableEq, Repr

/-- The power `2 ^ 1024`: a double is finite below it. -/
def doubleLimit : Nat := (2 ^ 256) ^ 4

/-- The number of low bits a natural number loses when it is cut to the 53
bits of the significand of a double: the number of halvings that bring `n`
below `2 ^ 53`.  The first argument bounds the number of halvings; `n` itself
is always enough. -/
def excessBits : Nat → Nat → Nat
  | 0, _ => 0
  | fuel + 1, n => if n < 2 ^ 53 then 0 else excessBits fuel (n / 2) + 1

/-- The Number value of a natural number: the nearest double, the one with the
even significand when two doubles are as near, and `Infinity` from `2 ^ 1024`
on.  With `e` the number of bits lost, `q` holds the 53 leading bits and `r`
the bits lost. -/
def roundToDouble (n : Nat) : JSNumber :=
  let e := excessBits n n
  let q := n / 2 ^ e
  let r := n % 2 ^ e
  let up := decide (2 * r > 2 ^ e) || (decide (2 * r = 2 ^ e) && decide (q % 2 = 1))
  let m := (if up then q + 1 else q) * 2 ^ e
  if m < doubleLimit then .finite m else .infinity

/-- The call `parseInt(amount, 10)` on a string of decimal digits: the Number
value of the integer the digits denote, and `NaN` for the empty string.  (For
more than 20 significant digits the language lets an engine read the digits
after the twentieth as zeros; the model rounds the integer itself.) -/
def parseInt10 (digits : String) : JSNumber :=
  if digits.data.isEmpty then .nan
  else roundToDouble (digits.data.foldl (fun n c => 10 * n + digitValue c) 0)

/-! ## `getTableOperations` -/

/-- An operation object.  `account` is set when the object is created, the
three other properties are added later and are absent until then. -/
structure Operation where
  account : String
  transaction : Option String := none
  amount : Option JSNumber := none
  currency : Option String := none
  deriving DecidableEq, Repr

/-- A table element, as far as the selector can see it: a table with one
`tbody`, given by the `tr` rows of that `tbody` in document order, each row by
the `textContent` of its `td` cells in document order. -/
structure Table where
  rows : List (List String)
  deriving DecidableEq, Repr

/-- The constant `LINE_LENGTH`. -/
def LINE_LENGTH : Nat := 3

/-- The selector `tbody tr:not(:first-child) td`: the cells of every row but
the first one, in document order. -/
def querySelectorAll (table : Table) : List String :=
  (table.rows.drop 1).flatten

/-- The assignment `operations[lastIndex].prop = ...` with
`lastIndex = operations.length - 1`: it changes the last object, and raises a
`TypeError` when the array is empty (`operations[-1]` is `undefined`). -/
def updateLast (operations : List Operation) (f : Operation → Operation) :
    Except JSError (List Operation) :=
  match operations.getLast? with
  | none => .error .typeError
  | some last => .ok (operations.dropLast ++ [f last])

/-- The callback given to `reduce` (lines 24-51). -/
def reducer (operations : List Operation) (value : String) (index : Nat) :
    Except JSError (List Operation) :=
  match index % LINE_LENGTH with
  | 0 => .ok (operations ++ [{ account := value }])
  | 1 => updateLast operations fun o => { o with transaction := some value }
  | 2 =>
    match amountMatch value with
    | none => .error .typeError
    | some (amount, currency) =>
      updateLast operations fun o =>
        { o with amount := some (parseInt10 amount), currency := some currency }
  | _ => .ok operations

/-- The method `reduce` from a given index and accumulator on: an exception of
the callback ends the whole call. -/
def reduceFrom : Nat → List Operation → List String → Except JSError (List Operation)
  | _, operations, [] => .ok operations
  | index, operations, td :: tds =>
    match reducer operations td index with
    | .error e => .error e
    | .ok operations' => reduceFrom (index + 1) operations' tds

/-- The function `getTableOperations` (lines 17-52). -/
def getTableOperations (table : Table) : Except JSError (List Operation) :=
  reduceFrom 0 [] (querySelectorAll table)

/-! ## The texts in which the regular expression matches -/

/-- A text that contains a decimal digit immediately followed by a character
that is not a line terminator: the texts on which `/(\d+)(.+)/` matches. -/
def digitThenChar : List Char → Bool
  | x :: y :: q => (isDigit x && isDot y) || digitThenChar (y :: q)
  | _ => false

/-- The way `/(\d+)(.+)/` cuts a text `v` in which it matches: `d` and `c` are
the two capture groups.  The match starts at the first digit of `v` that is
followed by a character other than a line terminator (`pre` is what stands
before it), `d` is a run of digits, `c` runs to the next line terminator or to
the end of `v`, and either `c` does not begin with a digit or `c` is the single
last digit of the digit run (the run then ends `v` or stands before a line
terminator, and the greedy `\d+` has given one digit back). -/
def AmountSplit (v d c : List Char) : Prop :=
  ∃ pre post, v = pre ++ d ++ c ++ post ∧
    d ≠ [] ∧ (∀ x ∈ d, isDigit x = true) ∧
    c ≠ [] ∧ (∀ x ∈ c, isLineTerminator x = false) ∧
    (post = [] ∨ ∃ x q, post = x :: q ∧ isLineTerminator x = true) ∧
    digitThenChar (pre ++ d.take 1) = false ∧
    ((∃ x q, c = x :: q ∧ isDigit x = false) ∨ (∃ x, c = [x] ∧ isDigit x = true))

/-! ## The fold, three cells at a time -/

/-- The operation object of a complete line of three cells. -/
def lineOperation (account transaction amount currency : String) : Operation :=
  { account := account, transaction := some transaction,
    amount := some (parseInt10 amount), currency := some currency }

/-- The fold of `getTableOperations` read three cells at a time: every complete
line gives one complete object, one or two cells left over give a last object
with `account` alone or with `account` and `transaction`. -/
def operationsOfCells : List String → Except JSError (List Operation)
  | [] => .ok []
  | [a] => .ok [{ account := a }]
  | [a, t] => .ok [{ account := a, transaction := some t }]
  | a :: t :: v :: rest =>
    match amountMatch v with
    | none => .error .typeError
    | some (d, c) =>
      match operationsOfCells rest with
      | .error e => .error e
      | .ok ops => .ok (lineOperation a t d c :: ops)

/-! ## Well-formed amount cells -/

/-- A non-empty string of decimal digits. -/
def isDigitString (d : String) : Bool :=
  !d.data.isEmpty && d.data.all isDigit

/-- A non-empty string that does not start with a decimal digit and contains no
line terminator. -/
def isCurrencySuffix (s : String) : Bool :=
  match s.data with
  | [] => false
  | x :: q => !isDigit x && (x :: q).all fun c => !isLineTerminator c

/-- The base-10 integer a string of decimal digits denotes (most significant
digit first). -/
def decimalValue (d : String) : Nat :=
  Nat.ofDigits 10 (d.data.reverse.map digitValue)

/-- A data row of three cells with a well-formed amount cell, given by its
account, its description, and the digits and the suffix of its amount cell. -/
structure Line where
  account : String
  description : String
  digits : String
  suffix : String
  deriving DecidableEq, Repr

/-- The three cells of the row of a line. -/
def Line.cells (l : Line) : List String :=
  [l.account, l.description, l.digits ++ l.suffix]

/-- The record a line stands for: its amount is the Number `parseInt` gives for
its digits. -/
def Line.operation (l : Line) : Operation :=
  { account := l.account, transaction := some l.description,
    amount := some (parseInt10 l.digits), currency := some l.suffix }

/-- A line whose digits and suffix are as `isDigitString` and
`isCurrencySuffix` ask. -/
def Line.wellFormed (l : Line) : Bool :=
  isDigitString l.digits && isCurrencySuffix l.suffix

/-- An operation object that has its four properties. -/
def Operation.isComplete (o : Operation) : Bool :=
  o.transaction.isSome && o.amount.isSome && o.currency.isSome

/-! ## `processPage` -/

/-- A frame of a page: the `table` elements of its document, in document order. -/
structure Frame where
  tables : List Table
  deriving DecidableEq, Repr

/-- An element handle: its tag name and the rows and cells below it. -/
structure Element where
  tagName : String
  table : Table
  deriving DecidableEq, Repr

/-- What the browser answers during one call of `processPage`, that is for one
page and one value of `startIndex` (the URL is built from it). -/
structure PageLoad where
  /-- Whether `page.goto` resolves. -/
  gotoOk : Bool
  /-- The frames given to the `frameattached` listener, in order, from its
  registration to the extraction. -/
  attached : List Frame
  /-- The element that wins the race of the two `waitForSelector` calls, or
  `none` when the race rejects. -/
  target : Option Element
  /-- The `table` elements of the page's own document, in document order. -/
  ownTables : List Table
  deriving DecidableEq, Repr

/-- The variable `lastFrame` when the extraction reads it: `undefined` at
first, then overwritten by the listener at every attached frame. -/
def lastFrame (attached : List Frame) : Option Frame :=
  attached.foldl (fun _ frame => some frame) none

/-- The call `lastFrame.$eval('table', getTableOperations)`: a `TypeError` when
`lastFrame` is `undefined`, a rejection when the frame has no `table`, and
otherwise `getTableOperations` on the first `table` of the frame. -/
def frameEval (frame : Option Frame) : Except JSError (List Operation) :=
  match frame with
  | none => .error .typeError
  | some f =>
    match f.tables with
    | [] => .error .browser
    | t :: _ => getTableOperations t

/-- Lines 84-100 of `processPage`: navigation, location of the target and
extraction; the value is the constant `operations`. -/
def extractOperations (load : PageLoad) : Except JSError (List Operation) :=
  if load.gotoOk then
    match load.target with
    | none => .error .browser
    | some target =>
      if target.tagName = "IFRAME" then frameEval (lastFrame load.attached)
      else getTableOperations target.table
  else .error .browser

/-- Lines 102-107 of `processPage`: the operations are pushed to the store when
there are any, and `Error('No data')` is thrown otherwise.  The value `none`
stands for an `operations` that is `undefined` or `null`. -/
def storeOperations (store : List Operation) (operations : Option (List Operation)) :
    Except JSError Unit × List Operation :=
  match operations with
  | none => (.error (.error "No data"), store)
  | some ops =>
    if ops.length > 0 then (.ok (), store ++ ops)
    else (.error (.error "No data"), store)

/-- The function `processPage` (lines 54-108), for the answer `load` of the
browser: its result and the store it leaves. -/
def processPage (load : PageLoad) (store : List Operation) :
    Except JSError Unit × List Operation :=
  match extractOperations load with
  | .error e => (.error e, store)
  | .ok operations => storeOperations store (some operations)

/-! ## The run loop -/

/-- The constant `PAGE_LENGTH`. -/
def PAGE_LENGTH : Nat := 50

/-- A browser tab, named by its slot in the array of pages. -/
abbrev Page := Nat

/-- The function `createPages` (lines 118-127): the loop runs to the literal
bound 10 whatever `count` is. -/
def createPages (_count : Nat) : List Page :=
  List.range 10

/-- The loop of `createPageProcessingPromises`: `promises` and `startIndex` are
the two variables it changes; a promise is recorded as the page and the offset
`processPage` was called with. -/
def createPromisesLoop : List Page → List (Page × Nat) → Nat → List (Page × Nat) × Nat
  | [], promises, startIndex => (promises, startIndex)
  | page :: pages, promises, startIndex =>
    createPromisesLoop pages (promises ++ [(page, startIndex)]) (startIndex + PAGE_LENGTH)

/-- The function `createPageProcessingPromises` (lines 130-141): the promises it
returns and the value it leaves in `startIndex`. -/
def createPageProcessingPromises (pages : List Page) (startIndex : Nat) :
    List (Page × Nat) × Nat :=
  createPromisesLoop pages [] startIndex

/-- Whether the process runs, waits for ever on promises that never settle, or
has exited with a status. -/
inductive Status where
  | running
  | pending
  | exited (code : Nat)
  deriving DecidableEq, Repr

/-- The state of a run: the variables `store` and `startIndex`, the status of
the process, the contents given to `writeFile` for `operations.json` so far,
and the offsets handed to `processPage` so far, round by round. -/
structure RunState where
  store : List Operation
  startIndex : Nat
  status : Status
  written : List (List Operation)
  launched : List (List Nat)
  deriving DecidableEq, Repr

/-- What happens around the program during one round of the loop. -/
structure RoundInput where
  /-- Whether `createPages` resolves. -/
  pagesOk : Bool
  /-- The calls of `processPage` that have settled when `await Promise.all`
  hands control back to the loop, in the order in which they settled (at most
  one for each promise). -/
  settled : List PageLoad
  /-- Whether `closePages` resolves. -/
  closeOk : Bool
  /-- Whether `writeFile` resolves. -/
  writeOk : Bool
  deriving DecidableEq, Repr

/-- The effect of the settled calls of `processPage` on the store, one after
the other, and whether all of them were fulfilled. -/
def settle (store : List Operation) : List PageLoad → Bool × List Operation
  | [] => (true, store)
  | load :: loads =>
    match processPage load store with
    | (.ok _, store') => settle store' loads
    | (.error _, store') => (false, (settle store' loads).2)

/-- The `catch` block of the loop (lines 157-162), entered with the store as it
stands: the store is serialized and written, and the process exits with status
0; a rejected `writeFile` reaches the handler of lines 165-168, which exits
with status 1. -/
def catchBlock (st : RunState) (store : List Operation) (writeOk : Bool) : RunState :=
  if writeOk then
    { st with store := store, written := st.written ++ [store], status := .exited 0 }
  else
    { st with store := store, status := .exited 1 }

/-- One turn of the `while (true)` loop (lines 150-163). -/
def runRound (st : RunState) (inp : RoundInput) : RunState :=
  match st.status with
  | .running =>
    if inp.pagesOk then
      let pages := createPages 10
      let (promises, startIndex) := createPageProcessingPromises pages st.startIndex
      let st1 : RunState :=
        { st with startIndex := startIndex,
                  launched := st.launched ++ [promises.map Prod.snd] }
      let (allFulfilled, store) := settle st.store inp.settled
      if allFulfilled then
        if inp.settled.length = promises.length then
          if inp.closeOk then { st1 with store := store }
          else catchBlock st1 store inp.writeOk
        else { st1 with store := store, status := .pending }
      else catchBlock st1 store inp.writeOk
    else { st with status := .exited 1 }
  | _ => st

/-- The state in which the loop starts (lines 114-115). -/
def initialState : RunState :=
  { store := [], startIndex := 0, status := .running, written := [], launched := [] }

/-- The loop, for the inputs of its successive rounds. -/
def runRounds (st : RunState) (inputs : List RoundInput) : RunState :=
  inputs.foldl runRound st

/-- The whole program (lines 110-168): a browser that fails to launch sends the
process to the handler of lines 165-168. -/
def run (launchOk : Bool) (inputs : List RoundInput) : RunState :=
  if launchOk then runRounds initialState inputs
  else { initialState with status := .exited 1 }

/-! ## Quantities of a round -/

/-- Whether a call of `processPage` is fulfilled (it does not depend on the
store, see `processPage_eq`). -/
def cycleFulfilled (load : PageLoad) : Bool :=
  match (processPage load []).1 with
  | .ok _ => true
  | .error _ => false

/-- The records a call of `processPage` pushes to the store (see
`processPage_eq`). -/
def cycleOperations (load : PageLoad) : List Operation :=
  (processPage load []).2

/-- The offsets of a round of ten pages that starts at `startIndex`. -/
def roundOffsets (startIndex : Nat) : List Nat :=
  (List.range 10).map fun i => startIndex + i * PAGE_LENGTH

/-- A round in which the pages are created, the ten calls of `processPage` are
fulfilled and the pages are closed. -/
def RoundInput.succeeds (inp : RoundInput) : Bool :=
  inp.pagesOk && decide (inp.settled.length = 10) && inp.settled.all cycleFulfilled &&
    inp.closeOk

/-! ## Sample inputs -/

/-- A page that shows a table with one data row. -/
def samplePage : PageLoad :=
  { gotoOk := true, attached := [],
    target := some ⟨"TABLE",
      ⟨[["Account", "Transaction", "Amount"], ["Checking", "Transaction 1", "123USD"]]⟩⟩,
    ownTables :=
      [⟨[["Account", "Transaction", "Amount"], ["Checking", "Transaction 1", "123USD"]]⟩] }

/-- A page that shows a table with its header row alone. -/
def emptyPage : PageLoad :=
  { gotoOk := true, attached := [],
    target := some ⟨"TABLE", ⟨[["Account", "Transaction", "Amount"]]⟩⟩,
    ownTables := [⟨[["Account", "Transaction", "Amount"]]⟩] }

/-- A page whose target is an iframe: two frames were attached, the last one
holds the table of the transactions, and the page's own document has another
table. -/
def framedPage : PageLoad :=
  { gotoOk := true,
    attached := [⟨[]⟩, ⟨[⟨[["Account", "Transaction", "Amount"], ["A", "T", "7EUR"]]⟩]⟩],
    target := some ⟨"IFRAME", ⟨[]⟩⟩,
    ownTables := [⟨[["Account", "Transaction", "Amount"], ["B", "U", "9USD"]]⟩] }

/-- A round in which the ten calls find one record each. -/
def sampleRound : RoundInput :=
  { pagesOk := true, settled := List.replicate 10 samplePage, closeOk := true,
    writeOk := true }

/-- A round in which a first call finds a record and a second one finds none. -/
def failingRound : RoundInput :=
  { pagesOk := true, settled := [samplePage, emptyPage], closeOk := true, writeOk := true }

/-! ## Facts about the regular expression -/

theorem takeWhile_eq_nil_iff_head (p : Char → Bool) (s : List Char) :
    s.takeWhile p = [] ↔ s = [] ∨ ∃ x q, s = x :: q ∧ p x = false := by
  cases s with
  | nil => simp
  | cons x q =>
    by_cases h : p x <;> simp [List.takeWhile_cons, h]

theorem matchDotPlus_none (s : List Char) :
    matchDotPlus s = none ↔ s.takeWhile isDot = [] := by
  unfold matchDotPlus
  split <;> simp_all

theorem matchDotPlus_some (s c : List Char) (h : matchDotPlus s = some c) :
    c = s.takeWhile isDot ∧ c ≠ [] := by
  unfold matchDotPlus at h
  split at h
  · simp at h
  · rename_i x xs heq
    simp only [Option.some.injEq] at h
    subst h
    exact ⟨heq.symm, by simp⟩

theorem matchDotPlus_of_takeWhile (s : List Char) (h : s.takeWhile isDot ≠ []) :
    matchDotPlus s = some (s.takeWhile isDot) := by
  unfold matchDotPlus
  split
  · rename_i heq; exact absurd heq h
  · rename_i x xs heq; rw [heq]

theorem matchDigitsThen_none (n : Nat) (s : List Char) :
    matchDigitsThen n s = none ↔
      ∀ j, 1 ≤ j → j ≤ n → matchDotPlus (s.drop j) = none := by
  induction n with
  | zero =>
    simp only [matchDigitsThen, true_iff]
    intro j h1 h2; omega
  | succ k ih =>
    unfold matchDigitsThen
    split
    · rename_i rest heq
      simp only [false_iff, not_forall, reduceCtorEq]
      exact ⟨k + 1, by omega, le_refl _, by simp [heq]⟩
    · rename_i heq
      rw [ih]
      constructor
      · intro h j h1 h2
        by_cases hj : j = k + 1
        · subst hj; exact heq
        · exact h j h1 (by omega)
      · intro h j h1 h2
        exact h j h1 (by omega)

theorem matchDigitsThen_some (n : Nat) (s d c : List Char)
    (h : matchDigitsThen n s = some (d, c)) :
    ∃ j, 1 ≤ j ∧ j ≤ n ∧ d = s.take j ∧ matchDotPlus (s.drop j) = some c ∧
      ∀ i, j < i → i ≤ n → matchDotPlus (s.drop i) = none := by
  induction n with
  | zero => simp [matchDigitsThen] at h
  | succ k ih =>
    unfold matchDigitsThen at h
    split at h
    · rename_i rest heq
      simp only [Option.some.injEq, Prod.mk.injEq] at h
      obtain ⟨h1, h2⟩ := h
      subst h1 h2
      exact ⟨k + 1, by omega, le_refl _, rfl, heq, fun i hi hi2 => by omega⟩
    · rename_i heq
      obtain ⟨j, h1, h2, h3, h4, h5⟩ := ih h
      refine ⟨j, h1, by omega, h3, h4, ?_⟩
      intro i hi hi2
      by_cases hik : i = k + 1
      · subst hik; exact heq
      · exact h5 i hi (by omega)

theorem isDot_of_isDigit (c : Char) (h : isDigit c = true) : isDot c = true := by
  simp only [isDigit, isDot, isLineTerminator, Bool.and_eq_true, decide_eq_true_eq,
    Bool.not_eq_true', Bool.or_eq_false_iff, beq_eq_false_iff_ne] at *
  omega

theorem dropWhile_head (p : Char → Bool) (s : List Char) :
    s.dropWhile p = [] ∨ ∃ x q, s.dropWhile p = x :: q ∧ p x = false := by
  induction s with
  | nil => simp
  | cons x q ih =>
    by_cases h : p x
    · simpa [List.dropWhile_cons, h] using ih
    · right; exact ⟨x, q, by simp [List.dropWhile_cons, h], by simpa using h⟩

theorem takeWhile_append_of_head (p : Char → Bool) (d t : List Char)
    (hd : ∀ x ∈ d, p x = true) (ht : t = [] ∨ ∃ x q, t = x :: q ∧ p x = false) :
    (d ++ t).takeWhile p = d := by
  induction d with
  | nil =>
    simpa using (takeWhile_eq_nil_iff_head p t).2 ht
  | cons x q ih =>
    have hx : p x = true := hd x (by simp)
    simp only [List.cons_append, List.takeWhile_cons, hx, ↓reduceIte, List.cons.injEq, true_and]
    exact ih fun y hy => hd y (by simp [hy])

theorem matchAt_nil : matchAt [] = none := by
  simp [matchAt, matchDigitsThen]

theorem matchAt_singleton (x : Char) : matchAt [x] = none := by
  unfold matchAt
  rw [matchDigitsThen_none]
  intro j h1 _
  have : ([x] : List Char).drop j = [] := by
    apply List.drop_eq_nil_of_le; simpa using h1
  rw [this]; simp [matchDotPlus]

theorem matchAt_none_iff (x y : Char) (q : List Char) :
    matchAt (x :: y :: q) = none ↔ ¬ (isDigit x = true ∧ isDot y = true) := by
  constructor
  · intro h ⟨hx, hy⟩
    unfold matchAt at h
    rw [matchDigitsThen_none] at h
    have h1 := h 1 (le_refl _) (by simp [List.takeWhile_cons, hx])
    rw [matchDotPlus_none] at h1
    simp [List.takeWhile_cons, hy] at h1
  · intro h
    unfold matchAt
    by_cases hx : isDigit x = true
    · have hy : isDot y = false := by
        cases hyd : isDot y with
        | false => rfl
        | true => exact absurd ⟨hx, hyd⟩ h
      have hyd : isDigit y = false := by
        cases hd : isDigit y with
        | false => rfl
        | true => rw [isDot_of_isDigit y hd] at hy; exact absurd hy (by simp)
      rw [matchDigitsThen_none]
      intro j h1 h2
      have hj : j = 1 := by
        simp [List.takeWhile_cons, hx, hyd] at h2; omega
      subst hj
      rw [matchDotPlus_none]
      simp [List.takeWhile_cons, hy]
    · simp [List.takeWhile_cons, hx, matchDigitsThen]

theorem regexExec_none_iff (v : List Char) :
    regexExec v = none ↔ digitThenChar v = false := by
  induction v with
  | nil => simp [regexExec, matchAt_nil, digitThenChar]
  | cons x q ih =>
    cases q with
    | nil =>
      simp [regexExec, matchAt_singleton, matchAt_nil, digitThenChar]
    | cons y r =>
      unfold regexExec
      cases hm : matchAt (x :: y :: r) with
      | none =>
        have := (matchAt_none_iff x y r).1 hm
        simp only [ih, digitThenChar, Bool.or_eq_false_iff, Bool.and_eq_false_iff]
        constructor
        · intro h
          refine ⟨?_, h⟩
          by_cases hx : isDigit x = true
          · right
            cases hyd : isDot y with
            | false => rfl
            | true => exact absurd ⟨hx, hyd⟩ this
          · left; simpa using hx
        · intro h; exact h.2
      | some r2 =>
        have hne : ¬ (matchAt (x :: y :: r) = none) := by simp [hm]
        rw [matchAt_none_iff] at hne
        simp only [not_not] at hne
        simp [digitThenChar, hne.1, hne.2]

theorem matchDigits_run (init : List Char) (l : Char) (tail d c : List Char)
    (hl : isDigit l = true)
    (h : matchDigitsThen (init.length + 1) (init ++ l :: tail) = some (d, c)) :
    (d = init ++ [l] ∧ matchDotPlus tail = some c) ∨
      (matchDotPlus tail = none ∧ init ≠ [] ∧ d = init ∧ c = [l]) := by
  have hdrop : (init ++ l :: tail).drop (init.length + 1) = tail := by
    have : init ++ l :: tail = (init ++ [l]) ++ tail := by simp
    rw [this]
    exact List.drop_left' (by simp)
  have htake : (init ++ l :: tail).take (init.length + 1) = init ++ [l] := by
    have : init ++ l :: tail = (init ++ [l]) ++ tail := by simp
    rw [this]
    exact List.take_left' (by simp)
  unfold matchDigitsThen at h
  rw [hdrop, htake] at h
  cases hm : matchDotPlus tail with
  | some rest =>
    rw [hm] at h
    simp only [Option.some.injEq, Prod.mk.injEq] at h
    left; exact ⟨h.1.symm, by rw [h.2]⟩
  | none =>
    rw [hm] at h
    right
    cases init with
    | nil => simp [matchDigitsThen] at h
    | cons a as =>
      have hdrop2 : ((a :: as) ++ l :: tail).drop (as.length + 1) = l :: tail :=
        List.drop_left' (by simp)
      have htake2 : ((a :: as) ++ l :: tail).take (as.length + 1) = a :: as :=
        List.take_left' (by simp)
      simp only [List.length_cons] at h
      unfold matchDigitsThen at h
      rw [hdrop2, htake2] at h
      have hm2 : matchDotPlus (l :: tail) = some [l] := by
        have hne : (l :: tail).takeWhile isDot ≠ [] := by
          simp [List.takeWhile_cons, isDot_of_isDigit l hl]
        rw [matchDotPlus_of_takeWhile _ hne]
        rw [matchDotPlus_none] at hm
        simp [List.takeWhile_cons, isDot_of_isDigit l hl, hm]
      rw [hm2] at h
      simp only [Option.some.injEq, Prod.mk.injEq] at h
      exact ⟨rfl, by simp, h.1.symm, h.2.symm⟩

theorem matchAt_some (s d c : List Char) (h : matchAt s = some (d, c)) :
    ∃ post, s = d ++ c ++ post ∧
      d ≠ [] ∧ (∀ x ∈ d, isDigit x = true) ∧
      c ≠ [] ∧ (∀ x ∈ c, isLineTerminator x = false) ∧
      (post = [] ∨ ∃ x q, post = x :: q ∧ isLineTerminator x = true) ∧
      ((∃ x q, c = x :: q ∧ isDigit x = false) ∨ (∃ x, c = [x] ∧ isDigit x = true)) := by
  have hs := List.takeWhile_append_dropWhile isDigit s
  have hrun : ∀ x ∈ s.takeWhile isDigit, isDigit x = true :=
    fun x hx => List.mem_takeWhile_imp hx
  have htail := dropWhile_head isDigit s
  unfold matchAt at h
  generalize s.takeWhile isDigit = run at hs hrun h
  generalize s.dropWhile isDigit = tail at hs htail
  subst hs
  rcases List.eq_nil_or_concat run with hnil | ⟨init, l, hrl⟩
  · subst hnil; simp [matchDigitsThen] at h
  · subst hrl
    simp only [List.concat_eq_append] at hrun h ⊢
    have hl : isDigit l = true := hrun l (by simp)
    have h2 : matchDigitsThen (init.length + 1) (init ++ l :: tail) = some (d, c) := by
      simpa using h
    rcases matchDigits_run init l tail d c hl h2 with ⟨hd, hc⟩ | ⟨hnone, hinit, hd, hc⟩
    · obtain ⟨hc1, hc2⟩ := matchDotPlus_some tail c hc
      refine ⟨tail.dropWhile isDot, ?_, ?_, ?_, hc2, ?_, ?_, ?_⟩
      · rw [hd, hc1, List.append_assoc (init ++ [l]), List.takeWhile_append_dropWhile]
      · rw [hd]; simp
      · rw [hd]; exact hrun
      · intro x hx
        rw [hc1] at hx
        have := List.mem_takeWhile_imp hx
        simpa [isDot] using this
      · rcases dropWhile_head isDot tail with h0 | ⟨x, q, hq, hx⟩
        · left; exact h0
        · right; exact ⟨x, q, hq, by simpa [isDot] using hx⟩
      · left
        rcases htail with h0 | ⟨x, q, hq, hx⟩
        · subst h0; simp at hc1; exact absurd hc1 hc2
        · subst hq
          by_cases hdx : isDot x = true
          · exact ⟨x, q.takeWhile isDot, by simp [hc1, List.takeWhile_cons, hdx], hx⟩
          · simp [List.takeWhile_cons, hdx] at hc1; exact absurd hc1 hc2
    · refine ⟨tail, ?_, hd ▸ hinit, ?_, ?_, ?_, ?_, ?_⟩
      · rw [hd, hc]
      · rw [hd]; intro x hx; exact hrun x (by simp [hx])
      · rw [hc]; simp
      · rw [hc]; intro x hx
        simp only [List.mem_singleton] at hx
        subst hx
        simpa [isDot] using isDot_of_isDigit x hl
      · rw [matchDotPlus_none, takeWhile_eq_nil_iff_head] at hnone
        rcases hnone with h0 | ⟨x, q, hq, hx⟩
        · left; exact h0
        · right; exact ⟨x, q, hq, by simpa [isDot] using hx⟩
      · right; exact ⟨l, hc, hl⟩

theorem regexExec_some (v d c : List Char) (h : regexExec v = some (d, c)) :
    AmountSplit v d c := by
  induction v with
  | nil => simp [regexExec, matchAt_nil] at h
  | cons x q ih =>
    unfold regexExec at h
    cases hm : matchAt (x :: q) with
    | some r =>
      rw [hm] at h
      simp only [Option.some.injEq] at h
      subst h
      obtain ⟨post, h1, h2, h3, h4, h5, h6, h7⟩ := matchAt_some _ _ _ hm
      refine ⟨[], post, by simpa using h1, h2, h3, h4, h5, h6, ?_, h7⟩
      cases d with
      | nil => exact absurd rfl h2
      | cons a as => simp [digitThenChar]
    | none =>
      rw [hm] at h
      obtain ⟨pre, post, h1, h2, h3, h4, h5, h6, h7, h8⟩ := ih h
      refine ⟨x :: pre, post, by simp [h1], h2, h3, h4, h5, h6, ?_, h8⟩
      cases d with
      | nil => exact absurd rfl h2
      | cons a as =>
        cases pre with
        | nil =>
          simp only [List.nil_append, List.cons_append] at h1
          subst h1
          have := (matchAt_none_iff x a _).1 hm
          simp only [List.take_succ_cons, List.take_zero, List.cons_append, List.nil_append,
            digitThenChar, Bool.or_false, Bool.and_eq_false_iff]
          by_cases hx : isDigit x = true
          · right
            cases hyd : isDot a with
            | false => rfl
            | true => exact absurd ⟨hx, hyd⟩ this
          · left; simpa using hx
        | cons b bs =>
          simp only [List.cons_append] at h1
          subst h1
          have := (matchAt_none_iff x b _).1 hm
          simp only [List.cons_append, digitThenChar, Bool.or_eq_false_iff,
            Bool.and_eq_false_iff]
          refine ⟨?_, by simpa using h7⟩
          by_cases hx : isDigit x = true
          · right
            cases hyd : isDot b with
            | false => rfl
            | true => exact absurd ⟨hx, hyd⟩ this
          · left; simpa using hx

theorem takeWhile_eq_self (p : Char → Bool) (s : List Char)
    (h : ∀ x ∈ s, p x = true) : s.takeWhile p = s := by
  induction s with
  | nil => rfl
  | cons x q ih =>
    have hx : p x = true := h x (by simp)
    simp only [List.takeWhile_cons, hx, ↓reduceIte, List.cons.injEq, true_and]
    exact ih fun y hy => h y (by simp [hy])

theorem regexExec_digits_append (d s : List Char) (hd : d ≠ [])
    (hdig : ∀ x ∈ d, isDigit x = true) (hs : s ≠ [])
    (hhead : ∀ x q, s = x :: q → isDigit x = false)
    (hlt : ∀ x ∈ s, isLineTerminator x = false) :
    regexExec (d ++ s) = some (d, s) := by
  have hrun : (d ++ s).takeWhile isDigit = d := by
    apply takeWhile_append_of_head isDigit d s hdig
    cases s with
    | nil => exact absurd rfl hs
    | cons x q => right; exact ⟨x, q, rfl, hhead x q rfl⟩
  have hdot : matchDotPlus s = some s := by
    have h1 : s.takeWhile isDot = s :=
      takeWhile_eq_self isDot s fun x hx => by simp [isDot, hlt x hx]
    have h2 := matchDotPlus_of_takeWhile s (by rw [h1]; exact hs)
    rw [h1] at h2; exact h2
  have hat : matchAt (d ++ s) = some (d, s) := by
    unfold matchAt
    rw [hrun]
    cases hlen : d.length with
    | zero => exact absurd (List.length_eq_zero.1 hlen) hd
    | succ k =>
      unfold matchDigitsThen
      have h1 : (d ++ s).drop (k + 1) = s := List.drop_left' hlen
      have h2 : (d ++ s).take (k + 1) = d := List.take_left' hlen
      rw [h1, h2, hdot]
  cases d with
  | nil => exact absurd rfl hd
  | cons a as =>
    simp only [List.cons_append] at hat ⊢
    unfold regexExec
    rw [hat]

/-! ## Facts about the fold -/

theorem updateLast_concat (ops : List Operation) (o : Operation)
    (f : Operation → Operation) :
    updateLast (ops ++ [o]) f = .ok (ops ++ [f o]) := by
  simp [updateLast]

theorem reduceFrom_eq : ∀ (cells : List String) (index : Nat) (ops : List Operation),
    index % 3 = 0 →
    reduceFrom index ops cells =
      match operationsOfCells cells with
      | .ok r => .ok (ops ++ r)
      | .error e => .error e
  | [], index, ops, _ => by simp [reduceFrom, operationsOfCells]
  | [a], index, ops, h => by
    simp [reduceFrom, operationsOfCells, reducer, LINE_LENGTH, h]
  | [a, t], index, ops, h => by
    have h1 : (index + 1) % 3 = 1 := by omega
    simp [reduceFrom, operationsOfCells, reducer, LINE_LENGTH, h, h1, updateLast_concat]
  | a :: t :: v :: rest, index, ops, h => by
    have h1 : (index + 1) % 3 = 1 := by omega
    have h2 : (index + 1 + 1) % 3 = 2 := by omega
    have h3 : (index + 1 + 1 + 1) % 3 = 0 := by omega
    have ih := reduceFrom_eq rest (index + 1 + 1 + 1)
    simp only [reduceFrom, operationsOfCells, reducer, LINE_LENGTH, h, h1, h2,
      updateLast_concat]
    cases hm : amountMatch v with
    | none => simp
    | some r =>
      obtain ⟨d, c⟩ := r
      simp only [updateLast_concat]
      rw [ih _ h3]
      cases operationsOfCells rest with
      | error e => simp
      | ok r => simp [lineOperation]

theorem getTableOperations_eq (table : Table) :
    getTableOperations table = operationsOfCells (querySelectorAll table) := by
  unfold getTableOperations
  rw [reduceFrom_eq _ 0 [] (by simp)]
  cases operationsOfCells (querySelectorAll table) <;> simp

/-! ## Facts about well-formed amount cells -/

theorem foldl_digits (ds : List Char) (n : Nat) :
    ds.foldl (fun n c => 10 * n + digitValue c) n =
      Nat.ofDigits 10 (ds.reverse.map digitValue) + 10 ^ ds.length * n := by
  induction ds generalizing n with
  | nil => simp
  | cons x q ih =>
    simp only [List.foldl_cons, List.reverse_cons, List.map_append, List.map_cons, List.map_nil,
      List.length_cons]
    rw [ih, Nat.ofDigits_append]
    simp only [List.length_map, List.length_reverse, Nat.ofDigits_singleton]
    ring

theorem excessBits_small (fuel n : Nat) (h : n < 2 ^ 53) : excessBits fuel n = 0 := by
  cases fuel with
  | zero => rfl
  | succ k => unfold excessBits; rw [if_pos h]

theorem excessBits_spec : ∀ (fuel n : Nat), n ≤ fuel →
    n / 2 ^ excessBits fuel n < 2 ^ 53 ∧
      (2 ^ 53 ≤ n → 2 ^ 52 ≤ n / 2 ^ excessBits fuel n)
  | 0, n, h => by
    have : n = 0 := by omega
    subst this; simp [excessBits]
  | fuel + 1, n, h => by
    unfold excessBits
    by_cases hn : n < 2 ^ 53
    · rw [if_pos hn]
      simp only [pow_zero, Nat.div_one]
      exact ⟨hn, fun h2 => absurd hn (by omega)⟩
    · rw [if_neg hn]
      have hle : n / 2 ≤ fuel := by omega
      obtain ⟨h1, h2⟩ := excessBits_spec fuel (n / 2) hle
      have e : n / 2 ^ (excessBits fuel (n / 2) + 1) = n / 2 / 2 ^ excessBits fuel (n / 2) := by
        rw [pow_succ, Nat.mul_comm, Nat.div_div_eq_div_mul]
      rw [e]
      refine ⟨h1, fun _ => ?_⟩
      by_cases h3 : n / 2 < 2 ^ 53
      · rw [excessBits_small fuel (n / 2) h3]
        simp only [pow_zero, Nat.div_one]
        omega
      · exact h2 (by omega)

theorem roundToDouble_small (n : Nat) (h : n ≤ 2 ^ 53) : roundToDouble n = .finite n := by
  rcases Nat.lt_or_eq_of_le h with h1 | h1
  · have hlt : n < doubleLimit := lt_of_lt_of_le h1 (by unfold doubleLimit; norm_num)
    unfold roundToDouble
    simp only [excessBits_small n n h1, pow_zero, Nat.div_one, Nat.mod_one, Nat.mul_zero,
      Nat.mul_one]
    have hup : (decide ((0 : Nat) > 1) || (decide ((0 : Nat) = 1) && decide (n % 2 = 1))) =
        false := by simp
    rw [hup]
    simp [hlt]
  · subst h1; decide

theorem parseInt10_eq (d : String) (hd : d.data ≠ []) :
    parseInt10 d = roundToDouble (decimalValue d) := by
  unfold parseInt10 decimalValue
  rw [foldl_digits]
  simp [hd]

theorem parseInt10_exact (d : String) (hd : d.data ≠ []) (hb : decimalValue d ≤ 2 ^ 53) :
    parseInt10 d = .finite (decimalValue d) := by
  rw [parseInt10_eq d hd, roundToDouble_small _ hb]

theorem amountMatch_wellFormed (d s : String) (hd : isDigitString d = true)
    (hs : isCurrencySuffix s = true) : amountMatch (d ++ s) = some (d, s) := by
  have h : regexExec (d ++ s).data = some (d.data, s.data) := by
    rw [String.data_append]
    simp only [isDigitString, Bool.and_eq_true, Bool.not_eq_true', List.isEmpty_eq_false,
      List.all_eq_true] at hd
    unfold isCurrencySuffix at hs
    apply regexExec_digits_append
    · exact hd.1
    · exact hd.2
    · intro h0; rw [h0] at hs; simp at hs
    · intro x q hq; rw [hq] at hs; simp at hs; exact hs.1
    · intro x hx
      cases hq : s.data with
      | nil => rw [hq] at hx; simp at hx
      | cons y q =>
        rw [hq] at hs hx
        simp only [Bool.and_eq_true, List.all_eq_true] at hs
        simpa using hs.2 x hx
  unfold amountMatch
  rw [h]
  rfl

theorem amountMatch_some (v d c : String) (h : amountMatch v = some (d, c)) :
    regexExec v.data = some (d.data, c.data) := by
  unfold amountMatch at h
  cases hr : regexExec v.data with
  | none => rw [hr] at h; simp at h
  | some r =>
    rw [hr] at h
    simp only [Option.map_some', Option.some.injEq, Prod.mk.injEq] at h
    rw [← h.1, ← h.2]

theorem amountMatch_none (v : String) :
    amountMatch v = none ↔ digitThenChar v.data = false := by
  unfold amountMatch
  rw [← regexExec_none_iff]
  simp

theorem operationsOfCells_lines (lines : List Line)
    (h : ∀ l ∈ lines, l.wellFormed = true) :
    operationsOfCells (lines.map Line.cells).flatten = .ok (lines.map Line.operation) := by
  induction lines with
  | nil => simp [operationsOfCells]
  | cons l ls ih =>
    have hl : l.wellFormed = true := h l (by simp)
    simp only [Line.wellFormed, Bool.and_eq_true] at hl
    have hm := amountMatch_wellFormed l.digits l.suffix hl.1 hl.2
    have ih2 := ih fun x hx => h x (by simp [hx])
    have hcells : (List.map Line.cells (l :: ls)).flatten =
        l.account :: l.description :: (l.digits ++ l.suffix) ::
          (List.map Line.cells ls).flatten := by
      simp [Line.cells]
    rw [hcells]
    unfold operationsOfCells
    rw [hm]
    simp only [ih2]
    simp [lineOperation, Line.operation]

theorem operationsOfCells_error : ∀ (cells : List String) (i : Nat) (v : String),
    i % 3 = 2 → cells[i]? = some v → amountMatch v = none →
    operationsOfCells cells = .error .typeError
  | [], i, v, _, h, _ => by simp at h
  | [a], i, v, hi, h, _ => by
    have : i ≠ 0 := by omega
    obtain ⟨k, rfl⟩ := Nat.exists_eq_succ_of_ne_zero this
    simp at h
  | [a, t], i, v, hi, h, _ => by
    have : 2 ≤ i := by omega
    obtain ⟨k, rfl⟩ := Nat.exists_eq_add_of_le this
    rw [Nat.add_comm] at h
    simp at h
  | a :: t :: w :: rest, i, v, hi, h, hv => by
    unfold operationsOfCells
    by_cases h2 : i = 2
    · subst h2
      simp only [List.getElem?_cons_succ, List.getElem?_cons_zero, Option.some.injEq] at h
      subst h
      rw [hv]
    · have : 3 ≤ i := by omega
      obtain ⟨k, rfl⟩ := Nat.exists_eq_add_of_le this
      have hk : rest[k]? = some v := by
        rw [Nat.add_comm] at h
        simpa using h
      have ih := operationsOfCells_error rest k v (by omega) hk hv
      rw [ih]
      cases amountMatch w with
      | none => rfl
      | some r => rfl

theorem operationsOfCells_ok : ∀ (cells : List String) (ops : List Operation) (j : Nat)
    (v : String), operationsOfCells cells = .ok ops → cells[3 * j + 2]? = some v →
    ∃ a t d c, cells[3 * j]? = some a ∧ cells[3 * j + 1]? = some t ∧
      amountMatch v = some (d, c) ∧ ops[j]? = some (lineOperation a t d c)
  | [], ops, j, v, _, h => by simp at h
  | [a], ops, j, v, _, h => by simp at h
  | [a, t], ops, j, v, _, h => by simp at h
  | a :: t :: w :: rest, ops, j, v, hok, h => by
    unfold operationsOfCells at hok
    cases hm : amountMatch w with
    | none => rw [hm] at hok; simp at hok
    | some r =>
      obtain ⟨d, c⟩ := r
      rw [hm] at hok
      cases hr : operationsOfCells rest with
      | error e => rw [hr] at hok; simp at hok
      | ok ops' =>
        rw [hr] at hok
        simp only [Except.ok.injEq] at hok
        subst hok
        cases j with
        | zero =>
          simp only [Nat.mul_zero, Nat.zero_add, List.getElem?_cons_succ,
            List.getElem?_cons_zero, Option.some.injEq] at h
          subst h
          exact ⟨a, t, d, c, by simp, by simp, hm, by simp⟩
        | succ k =>
          have e0 : 3 * (k + 1) = 3 * k + 1 + 1 + 1 := by ring
          have e1 : 3 * (k + 1) + 1 = 3 * k + 1 + 1 + 1 + 1 := by ring
          have e2 : 3 * (k + 1) + 2 = 3 * k + 2 + 1 + 1 + 1 := by ring
          rw [e2] at h
          simp only [List.getElem?_cons_succ] at h
          obtain ⟨a', t', d', c', h1, h2, h3, h4⟩ := operationsOfCells_ok rest ops' k v hr h
          refine ⟨a', t', d', c', ?_, ?_, h3, ?_⟩
          · rw [e0]; simpa using h1
          · rw [e1]; simpa using h2
          · simpa using h4

theorem operationsOfCells_shape : ∀ (cells : List String) (ops : List Operation),
    operationsOfCells cells = .ok ops →
    ops.length = (cells.length + 2) / 3 ∧
      ((∀ o ∈ ops, o.isComplete = true) ↔ cells.length % 3 = 0) ∧
      (cells.length % 3 = 1 → ∃ a, ops.getLast? = some { account := a }) ∧
      (cells.length % 3 = 2 →
        ∃ a t, ops.getLast? = some { account := a, transaction := some t })
  | [], ops, h => by
    simp only [operationsOfCells, Except.ok.injEq] at h
    subst h; simp
  | [a], ops, h => by
    simp only [operationsOfCells, Except.ok.injEq] at h
    subst h; simp [Operation.isComplete]
  | [a, t], ops, h => by
    simp only [operationsOfCells, Except.ok.injEq] at h
    subst h; simp [Operation.isComplete]
  | a :: t :: w :: rest, ops, hok => by
    unfold operationsOfCells at hok
    cases hm : amountMatch w with
    | none => rw [hm] at hok; simp at hok
    | some r =>
      obtain ⟨d, c⟩ := r
      rw [hm] at hok
      cases hr : operationsOfCells rest with
      | error e => rw [hr] at hok; simp at hok
      | ok ops' =>
        rw [hr] at hok
        simp only [Except.ok.injEq] at hok
        subst hok
        obtain ⟨h1, h2, h3, h4⟩ := operationsOfCells_shape rest ops' hr
        have hlen : (a :: t :: w :: rest).length = rest.length + 3 := by simp
        rw [hlen]
        refine ⟨?_, ?_, ?_, ?_⟩
        · simp only [List.length_cons, h1]; omega
        · have hc : (lineOperation a t d c).isComplete = true := by
            simp [lineOperation, Operation.isComplete]
          have e : (rest.length + 3) % 3 = rest.length % 3 := by omega
          rw [e, ← h2]
          simp [hc]
        · intro hmod
          obtain ⟨x, hx⟩ := h3 (by omega)
          refine ⟨x, ?_⟩
          cases ops' with
          | nil => simp at hx
          | cons o os => rw [List.getLast?_cons_cons]; exact hx
        · intro hmod
          obtain ⟨x, y, hx⟩ := h4 (by omega)
          refine ⟨x, y, ?_⟩
          cases ops' with
          | nil => simp at hx
          | cons o os => rw [List.getLast?_cons_cons]; exact hx

/-! ## Facts about `processPage` and the run loop -/

theorem lastFrame_append (fs : List Frame) (f : Frame) : lastFrame (fs ++ [f]) = some f := by
  simp [lastFrame]

theorem processPage_eq (load : PageLoad) (store : List Operation) :
    processPage load store = ((processPage load []).1, store ++ cycleOperations load) := by
  unfold cycleOperations processPage
  cases extractOperations load with
  | error e => simp
  | ok ops =>
    simp only [storeOperations]
    by_cases h : ops.length > 0 <;> simp [h]

theorem processPage_fst (load : PageLoad) (store : List Operation) :
    (processPage load store).1 = (processPage load []).1 := by
  rw [processPage_eq]

theorem settle_eq (loads : List PageLoad) : ∀ store : List Operation,
    settle store loads =
      (loads.all cycleFulfilled, store ++ loads.flatMap cycleOperations) := by
  induction loads with
  | nil => intro store; simp [settle]
  | cons l ls ih =>
    intro store
    unfold settle
    rw [processPage_eq l store]
    cases h : (processPage l []).1 with
    | error e => simp [ih, cycleFulfilled, h]
    | ok u => simp [ih, cycleFulfilled, h]

theorem createPromisesLoop_eq (pages : List Page) :
    ∀ (promises : List (Page × Nat)) (B : Nat),
      createPromisesLoop pages promises B =
        (promises ++ List.zip pages
            ((List.range pages.length).map fun i => B + i * PAGE_LENGTH),
          B + pages.length * PAGE_LENGTH) := by
  induction pages with
  | nil => intro promises B; simp [createPromisesLoop]
  | cons x q ih =>
    intro promises B
    unfold createPromisesLoop
    rw [ih]
    simp only [List.length_cons, List.range_succ_eq_map, List.map_cons, List.map_map,
      List.zip_cons_cons, List.append_assoc, List.singleton_append, Prod.mk.injEq]
    refine ⟨?_, by ring⟩
    congr 3
    simp only [zero_mul, add_zero, List.cons.injEq, true_and, List.map_inj_left,
      Function.comp_apply, List.mem_range]
    intro a _
    rw [Nat.succ_eq_add_one]
    ring

theorem createPromises_round (B : Nat) :
    createPageProcessingPromises (createPages 10) B =
      (List.zip (List.range 10) (roundOffsets B), B + 500) := by
  unfold createPageProcessingPromises
  rw [createPromisesLoop_eq]
  simp [createPages, roundOffsets, PAGE_LENGTH]

theorem roundOffsets_length (B : Nat) : (roundOffsets B).length = 10 := by
  simp [roundOffsets]

theorem zip_range_snd (B : Nat) :
    (List.zip (List.range 10) (roundOffsets B)).map Prod.snd = roundOffsets B := by
  apply List.map_snd_zip
  simp [roundOffsets]

theorem runRound_of_not_running (st : RunState) (inp : RoundInput)
    (h : st.status ≠ .running) : runRound st inp = st := by
  unfold runRound
  cases hs : st.status with
  | running => exact absurd hs h
  | pending => rfl
  | exited c => rfl

theorem runRounds_of_not_running (inputs : List RoundInput) :
    ∀ st : RunState, st.status ≠ .running → runRounds st inputs = st := by
  induction inputs with
  | nil => intro st _; rfl
  | cons i is ih =>
    intro st h
    simp only [runRounds, List.foldl_cons]
    rw [runRound_of_not_running st i h]
    exact ih st h

theorem runRounds_cons (st : RunState) (inp : RoundInput) (inputs : List RoundInput) :
    runRounds st (inp :: inputs) = runRounds (runRound st inp) inputs := rfl

theorem runRounds_append (st : RunState) (xs ys : List RoundInput) :
    runRounds st (xs ++ ys) = runRounds (runRounds st xs) ys := by
  simp [runRounds]

theorem runRound_succeeds (st : RunState) (inp : RoundInput)
    (hs : st.status = .running) (h : inp.succeeds = true) :
    runRound st inp =
      { st with store := st.store ++ inp.settled.flatMap cycleOperations,
                startIndex := st.startIndex + 500,
                launched := st.launched ++ [roundOffsets st.startIndex] } := by
  simp only [RoundInput.succeeds, Bool.and_eq_true, decide_eq_true_eq] at h
  obtain ⟨⟨⟨h1, h2⟩, h3⟩, h4⟩ := h
  unfold runRound
  rw [hs]
  simp only [h1, ↓reduceIte, createPromises_round, settle_eq, h3, zip_range_snd, h4]
  have : inp.settled.length = (List.zip (List.range 10) (roundOffsets st.startIndex)).length := by
    simp [h2, roundOffsets]
  simp [this]

theorem runRound_fails (st : RunState) (inp : RoundInput)
    (hs : st.status = .running) (h1 : inp.pagesOk = true)
    (h2 : inp.settled.all cycleFulfilled = false) (h3 : inp.writeOk = true) :
    runRound st inp =
      { store := st.store ++ inp.settled.flatMap cycleOperations,
        startIndex := st.startIndex + 500,
        status := .exited 0,
        written := st.written ++ [st.store ++ inp.settled.flatMap cycleOperations],
        launched := st.launched ++ [roundOffsets st.startIndex] } := by
  unfold runRound
  rw [hs]
  simp only [h1, ↓reduceIte, createPromises_round, settle_eq, h2, zip_range_snd, catchBlock, h3]
  simp

theorem runRound_launched (st : RunState) (inp : RoundInput)
    (hs : st.status = .running) (h1 : inp.pagesOk = true) :
    (runRound st inp).launched = st.launched ++ [roundOffsets st.startIndex] ∧
      (runRound st inp).startIndex = st.startIndex + 500 := by
  unfold runRound
  rw [hs]
  simp only [h1, ↓reduceIte, createPromises_round, settle_eq, zip_range_snd, catchBlock]
  split_ifs <;> simp

theorem runRound_invariant (st : RunState) (inp : RoundInput)
    (h : st.launched = (List.range st.launched.length).map (fun k => roundOffsets (500 * k)) ∧
      st.startIndex = 500 * st.launched.length) :
    (runRound st inp).launched =
        (List.range (runRound st inp).launched.length).map (fun k => roundOffsets (500 * k)) ∧
      (runRound st inp).startIndex = 500 * (runRound st inp).launched.length := by
  by_cases hs : st.status = .running
  · by_cases h1 : inp.pagesOk = true
    · obtain ⟨e1, e2⟩ := runRound_launched st inp hs h1
      rw [e1, e2]
      simp only [List.length_append, List.length_singleton, List.range_succ, List.map_append,
        List.map_cons, List.map_nil]
      rw [← h.1, ← h.2]
      exact ⟨rfl, by rw [h.2]; ring⟩
    · have : runRound st inp = { st with status := .exited 1 } := by
        unfold runRound
        rw [hs]
        simp [h1]
      rw [this]
      exact h
  · rw [runRound_of_not_running st inp hs]
    exact h

theorem runRounds_invariant (inputs : List RoundInput) : ∀ st : RunState,
    (st.launched = (List.range st.launched.length).map (fun k => roundOffsets (500 * k)) ∧
      st.startIndex = 500 * st.launched.length) →
    ((runRounds st inputs).launched =
        (List.range (runRounds st inputs).launched.length).map
          (fun k => roundOffsets (500 * k)) ∧
      (runRounds st inputs).startIndex = 500 * (runRounds st inputs).launched.length) := by
  induction inputs with
  | nil => intro st h; exact h
  | cons i is ih =>
    intro st h
    rw [runRounds_cons]
    exact ih _ (runRound_invariant st i h)

theorem run_invariant (launchOk : Bool) (inputs : List RoundInput) :
    (run launchOk inputs).launched =
        (List.range (run launchOk inputs).launched.length).map
          (fun k => roundOffsets (500 * k)) ∧
      (run launchOk inputs).startIndex = 500 * (run launchOk inputs).launched.length := by
  unfold run
  cases launchOk with
  | true => exact runRounds_invariant inputs initialState ⟨rfl, rfl⟩
  | false => exact ⟨rfl, rfl⟩

theorem roundOffsets_pairwise (B : Nat) : (roundOffsets B).Pairwise (· < ·) := by
  unfold roundOffsets
  rw [List.pairwise_map]
  refine (List.pairwise_lt_range 10).imp ?_
  intro a b hab
  simp only [PAGE_LENGTH]
  omega

theorem allRounds_pairwise (n : Nat) :
    ((List.range n).map fun k => roundOffsets (500 * k)).flatten.Pairwise (· < ·) := by
  rw [List.pairwise_flatten]
  constructor
  · intro l hl
    simp only [List.mem_map, List.mem_range] at hl
    obtain ⟨k, _, rfl⟩ := hl
    exact roundOffsets_pairwise _
  · rw [List.pairwise_map]
    refine (List.pairwise_lt_range n).imp ?_
    intro a b hab x hx y hy
    simp only [roundOffsets, PAGE_LENGTH, List.mem_map, List.mem_range] at hx hy
    obtain ⟨i, hi, rfl⟩ := hx
    obtain ⟨i', hi', rfl⟩ := hy
    omega

theorem runRounds_succeed (good : List RoundInput) : ∀ st : RunState,
    st.status = .running → (∀ r ∈ good, r.succeeds = true) →
    (runRounds st good).status = .running ∧
      (runRounds st good).written = st.written ∧
      (runRounds st good).launched.length = st.launched.length + good.length ∧
      (runRounds st good).store =
        st.store ++ (good.flatMap fun r => r.settled).flatMap cycleOperations := by
  induction good with
  | nil => intro st hs _; simp [runRounds, hs]
  | cons r rs ih =>
    intro st hs h
    rw [runRounds_cons, runRound_succeeds st r hs (h r (by simp))]
    obtain ⟨h1, h2, h3, h4⟩ := ih
      { st with store := st.store ++ r.settled.flatMap cycleOperations,
                startIndex := st.startIndex + 500,
                launched := st.launched ++ [roundOffsets st.startIndex] }
      hs (fun x hx => h x (by simp [hx]))
    refine ⟨h1, h2, ?_, ?_⟩
    · rw [h3]; simp; omega
    · rw [h4]; simp

/-! ## The claims -/

/-- C1 as stated fails: at the cell `"9007199254740993USD"` the digits are a
non-empty string of decimal digits of value 9007199254740993 and the suffix is
well formed, yet the amount of the record is 9007199254740992, the double
nearest to that value. -/
theorem amount_rounded_above_two_pow_53 :
    isDigitString "9007199254740993" = true ∧ isCurrencySuffix "USD" = true ∧
      decimalValue "9007199254740993" = 9007199254740993 ∧
      getTableOperations
          ⟨[["Account", "Transaction", "Amount"],
            ["Checking", "Transaction 1", "9007199254740993USD"]]⟩ =
        .ok [{ account := "Checking", transaction := some "Transaction 1",
               amount := some (.finite 9007199254740992), currency := some "USD" }] := by
  decide

/-- C1, amended: for every account text `a`, description text `t`, non-empty
string of decimal digits `d` of base-10 value at most `2 ^ 53` and non-empty
suffix `s` that does not start with a digit and contains no line terminator,
`getTableOperations` on a table whose only data row, after the header row, has
the cells `a`, `t`, `d ++ s` returns exactly one record, with account `a`,
transaction `t`, amount the base-10 value of `d` and currency `s`. -/
theorem getTableOperations_single_row (header : List String) (a t d s : String)
    (hd : isDigitString d = true) (hb : decimalValue d ≤ 2 ^ 53)
    (hs : isCurrencySuffix s = true) :
    getTableOperations ⟨[header, [a, t, d ++ s]]⟩ =
      .ok [{ account := a, transaction := some t,
             amount := some (.finite (decimalValue d)), currency := some s }] := by
  rw [getTableOperations_eq]
  have h := operationsOfCells_lines [⟨a, t, d, s⟩]
    (by intro l hl; simp only [List.mem_singleton] at hl; subst hl
        simp [Line.wellFormed, hd, hs])
  have hne : d.data ≠ [] := by
    simp only [isDigitString, Bool.and_eq_true, Bool.not_eq_true', List.isEmpty_eq_false] at hd
    exact hd.1
  rw [← parseInt10_exact d hne hb]
  simpa [querySelectorAll, Line.cells, Line.operation] using h

/-- C1, amended, at the cell `"123USD"`: amount 123 and currency `"USD"`. -/
theorem getTableOperations_single_row_witness :
    isDigitString "123" = true ∧ decimalValue "123" ≤ 2 ^ 53 ∧
      isCurrencySuffix "USD" = true ∧
      getTableOperations
          ⟨[["Account", "Transaction", "Amount"], ["Checking", "Transaction 1", "123USD"]]⟩ =
        .ok [{ account := "Checking", transaction := some "Transaction 1",
               amount := some (.finite 123), currency := some "USD" }] :=
  ⟨by decide, by decide, by decide,
    getTableOperations_single_row ["Account", "Transaction", "Amount"]
      "Checking" "Transaction 1" "123" "USD" (by decide) (by decide) (by decide)⟩

/-- C2 as stated fails: the amount cell `"-42EUR"` does not begin with a decimal
digit, and `getTableOperations` returns a record (amount 42, currency `"EUR"`)
instead of throwing, because the regular expression is not anchored. -/
theorem amount_cell_without_leading_digit_accepted :
    "-42EUR".data.head?.map isDigit = some false ∧
      getTableOperations
          ⟨[["Account", "Transaction", "Amount"], ["Checking", "Transaction 1", "-42EUR"]]⟩ =
        .ok [{ account := "Checking", transaction := some "Transaction 1",
               amount := some (.finite 42), currency := some "EUR" }] := by
  decide

/-- C2, amended: for every amount cell (a cell at position 2 of a triple) whose
text contains no decimal digit immediately followed by a character other than a
line terminator, `getTableOperations` throws instead of returning records. -/
theorem getTableOperations_throws (table : Table) (i : Nat) (v : String)
    (hi : i % 3 = 2) (hv : (querySelectorAll table)[i]? = some v)
    (hno : digitThenChar v.data = false) :
    getTableOperations table = .error .typeError := by
  rw [getTableOperations_eq]
  exact operationsOfCells_error _ i v hi hv ((amountMatch_none v).2 hno)

/-- C2, amended, at the amount cell `"USD"`. -/
theorem getTableOperations_throws_witness :
    2 % 3 = 2 ∧
      (querySelectorAll
          ⟨[["Account", "Transaction", "Amount"], ["Checking", "Transaction 1", "USD"]]⟩)[2]? =
        some "USD" ∧
      digitThenChar "USD".data = false ∧
      getTableOperations
          ⟨[["Account", "Transaction", "Amount"], ["Checking", "Transaction 1", "USD"]]⟩ =
        .error .typeError :=
  ⟨by decide, by decide, by decide,
    getTableOperations_throws
      ⟨[["Account", "Transaction", "Amount"], ["Checking", "Transaction 1", "USD"]]⟩
      2 "USD" (by decide) (by decide) (by decide)⟩

/-- C3 as stated fails.  On the cell `"123"` the maximal run of digits at the
start is the whole cell, of value 123, and the rest is empty, yet the amount is
12 and the currency is `"3"`, which begins with a digit.  On the cell `"ab12cd"`
there is no digit at the start, yet the call succeeds with amount 12 and
currency `"cd"`.  On the cell `"12 EUR\nnote"` the currency is `" EUR"`, not
the rest `" EUR\nnote"` of the cell. -/
theorem amount_is_not_the_leading_digit_run :
    decimalValue (String.mk ("123".data.takeWhile isDigit)) = 123 ∧
      String.mk ("123".data.dropWhile isDigit) = "" ∧
      getTableOperations ⟨[["Account", "Transaction", "Amount"], ["A", "T", "123"]]⟩ =
        .ok [{ account := "A", transaction := some "T",
               amount := some (.finite 12), currency := some "3" }] ∧
      "3".data.head?.map isDigit = some true ∧
      "ab12cd".data.takeWhile isDigit = [] ∧
      getTableOperations ⟨[["Account", "Transaction", "Amount"], ["A", "T", "ab12cd"]]⟩ =
        .ok [{ account := "A", transaction := some "T",
               amount := some (.finite 12), currency := some "cd" }] ∧
      String.mk ("12 EUR\nnote".data.dropWhile isDigit) = " EUR\nnote" ∧
      getTableOperations
          ⟨[["Account", "Transaction", "Amount"], ["A", "T", "12 EUR\nnote"]]⟩ =
        .ok [{ account := "A", transaction := some "T",
               amount := some (.finite 12), currency := some " EUR" }] := by
  decide

/-- C3, amended: for every position-2 cell text `v` on which
`getTableOperations` succeeds, `v = pre ++ d ++ c ++ post` where `d` is a
non-empty run of digits that starts at the first digit of `v` followed by a
character other than a line terminator, `c` is non-empty and has no line
terminator, `post` is empty or begins with a line terminator, and either `c`
does not begin with a digit or `c` is one digit (see `AmountSplit`); the
currency of the record of that triple is `c`, and its amount is the Number
`parseInt` gives for `d`, the double nearest to the base-10 value of `d`: that
value itself whenever it is at most `2 ^ 53`. -/
theorem amount_currency_split (table : Table) (ops : List Operation) (j : Nat) (v : String)
    (hok : getTableOperations table = .ok ops)
    (hv : (querySelectorAll table)[3 * j + 2]? = some v) :
    ∃ o d c, ops[j]? = some o ∧ o.amount = some (roundToDouble (decimalValue d)) ∧
      (decimalValue d ≤ 2 ^ 53 → o.amount = some (.finite (decimalValue d))) ∧
      o.currency = some c ∧ AmountSplit v.data d.data c.data := by
  rw [getTableOperations_eq] at hok
  obtain ⟨a, t, d, c, _, _, hm, ho⟩ := operationsOfCells_ok _ ops j v hok hv
  have hsplit := regexExec_some _ _ _ (amountMatch_some v d c hm)
  have hne : d.data ≠ [] := by
    obtain ⟨pre, post, _, h2, _⟩ := hsplit
    exact h2
  refine ⟨lineOperation a t d c, d, c, ho, ?_, ?_, rfl, hsplit⟩
  · simp [lineOperation, parseInt10_eq d hne]
  · intro hb
    simp [lineOperation, parseInt10_exact d hne hb]

/-- C3, amended, at the cell `"123"`. -/
theorem amount_currency_split_witness :
    getTableOperations ⟨[["Account", "Transaction", "Amount"], ["A", "T", "123"]]⟩ =
        .ok [{ account := "A", transaction := some "T", amount := some (.finite 12),
               currency := some "3" }] ∧
      (querySelectorAll ⟨[["Account", "Transaction", "Amount"], ["A", "T", "123"]]⟩)[3 * 0 + 2]? =
        some "123" ∧
      ∃ o d c,
        ([{ account := "A", transaction := some "T", amount := some (.finite 12),
            currency := some "3" }] : List Operation)[0]? = some o ∧
          o.amount = some (roundToDouble (decimalValue d)) ∧
          (decimalValue d ≤ 2 ^ 53 → o.amount = some (.finite (decimalValue d))) ∧
          o.currency = some c ∧ AmountSplit "123".data d.data c.data :=
  ⟨by decide, by decide,
    amount_currency_split ⟨[["Account", "Transaction", "Amount"], ["A", "T", "123"]]⟩
      [{ account := "A", transaction := some "T", amount := some (.finite 12),
         currency := some "3" }]
      0 "123" (by decide) (by decide)⟩

/-- C4: for every `N` and every table made of one header row followed by `N`
data rows of three cells with well-formed amount cells, `getTableOperations`
returns exactly `N` records, the i-th one built from the cells of the i-th data
row, and none from the cells of the header row. -/
theorem getTableOperations_rows (header : List String) (lines : List Line)
    (h : ∀ l ∈ lines, l.wellFormed = true) :
    getTableOperations ⟨header :: lines.map Line.cells⟩ = .ok (lines.map Line.operation) ∧
      (lines.map Line.operation).length = lines.length := by
  refine ⟨?_, by simp⟩
  rw [getTableOperations_eq]
  simpa [querySelectorAll] using operationsOfCells_lines lines h

/-- C4 on a table of two data rows. -/
theorem getTableOperations_rows_witness :
    (∀ l ∈ [(⟨"A", "T1", "10", "EUR"⟩ : Line), ⟨"B", "T2", "25", "USD"⟩],
        l.wellFormed = true) ∧
      getTableOperations
          ⟨["Account", "Transaction", "Amount"] ::
            [(⟨"A", "T1", "10", "EUR"⟩ : Line), ⟨"B", "T2", "25", "USD"⟩].map Line.cells⟩ =
        .ok ([(⟨"A", "T1", "10", "EUR"⟩ : Line), ⟨"B", "T2", "25", "USD"⟩].map
          Line.operation) ∧
      ([(⟨"A", "T1", "10", "EUR"⟩ : Line), ⟨"B", "T2", "25", "USD"⟩].map
          Line.operation).length = 2 :=
  ⟨by decide,
    getTableOperations_rows ["Account", "Transaction", "Amount"]
      [⟨"A", "T1", "10", "EUR"⟩, ⟨"B", "T2", "25", "USD"⟩] (by decide)⟩

/-- C10: for every sequence of `m` data cells on which `getTableOperations`
does not throw, the result has `ceil(m / 3)` records; every record has its four
fields if and only if `m` is a multiple of 3; when `m mod 3 = 1` the last record
has only `account`, and when `m mod 3 = 2` it has `account` and `transaction`
but no `amount` and no `currency`. -/
theorem getTableOperations_shape (table : Table) (ops : List Operation)
    (h : getTableOperations table = .ok ops) :
    ops.length = ((querySelectorAll table).length + 2) / 3 ∧
      ((∀ o ∈ ops, o.isComplete = true) ↔ (querySelectorAll table).length % 3 = 0) ∧
      ((querySelectorAll table).length % 3 = 1 →
        ∃ a, ops.getLast? = some { account := a }) ∧
      ((querySelectorAll table).length % 3 = 2 →
        ∃ a t, ops.getLast? = some { account := a, transaction := some t }) := by
  rw [getTableOperations_eq] at h
  exact operationsOfCells_shape _ ops h

/-- C10 on a table of five data cells. -/
theorem getTableOperations_shape_witness :
    ([{ account := "A", transaction := some "T", amount := some (.finite 7), currency := some "EUR" },
      { account := "B", transaction := some "U" }] : List Operation).length = (5 + 2) / 3 ∧
      ∃ a t,
        ([{ account := "A", transaction := some "T", amount := some (.finite 7),
            currency := some "EUR" },
          { account := "B", transaction := some "U" }] : List Operation).getLast? =
          some { account := a, transaction := some t } :=
  have h := getTableOperations_shape
    ⟨[["Account", "Transaction", "Amount"], ["A", "T", "7EUR"], ["B", "U"]]⟩
    [{ account := "A", transaction := some "T", amount := some (.finite 7), currency := some "EUR" },
      { account := "B", transaction := some "U" }]
    (by decide)
  ⟨h.1, h.2.2.2 (by decide)⟩

/-- C5: for every base value `B` of `startIndex` and every list of pages,
`createPageProcessingPromises` calls `processPage` on the i-th page with the
offset `B + i * PAGE_LENGTH`, where `PAGE_LENGTH = 50`; the offsets are
`B, B + 50, ...` without duplicates, and `startIndex` is left at
`B + P * 50`.  In a round of the loop the offsets and the new `startIndex` are
the same whatever calls settle, and in whatever order. -/
theorem createPageProcessingPromises_offsets (B : Nat) (pages : List Page) :
    (createPageProcessingPromises pages B).1 =
        List.zip pages ((List.range pages.length).map fun i => B + i * PAGE_LENGTH) ∧
      (createPageProcessingPromises pages B).1.map Prod.snd =
        (List.range pages.length).map (fun i => B + i * PAGE_LENGTH) ∧
      ((createPageProcessingPromises pages B).1.map Prod.snd).Nodup ∧
      (createPageProcessingPromises pages B).2 = B + pages.length * PAGE_LENGTH ∧
      PAGE_LENGTH = 50 ∧
      ∀ (st : RunState) (inp : RoundInput), st.status = .running → inp.pagesOk = true →
        (runRound st inp).launched = st.launched ++ [roundOffsets st.startIndex] ∧
          (runRound st inp).startIndex = st.startIndex + 10 * PAGE_LENGTH := by
  have h1 : (createPageProcessingPromises pages B).1 =
      List.zip pages ((List.range pages.length).map fun i => B + i * PAGE_LENGTH) := by
    unfold createPageProcessingPromises
    rw [createPromisesLoop_eq]
    simp
  have h2 : (createPageProcessingPromises pages B).1.map Prod.snd =
      (List.range pages.length).map (fun i => B + i * PAGE_LENGTH) := by
    rw [h1]
    apply List.map_snd_zip
    simp
  refine ⟨h1, h2, ?_, ?_, rfl, ?_⟩
  · rw [h2]
    have hp : ((List.range pages.length).map fun i => B + i * PAGE_LENGTH).Pairwise
        (· < ·) := by
      rw [List.pairwise_map]
      refine (List.pairwise_lt_range pages.length).imp ?_
      intro a b hab
      simp only [PAGE_LENGTH]
      omega
    exact hp.imp (fun hlt => Nat.ne_of_lt hlt)
  · unfold createPageProcessingPromises
    rw [createPromisesLoop_eq]
  · intro st inp hs hp
    exact runRound_launched st inp hs hp

/-- C5 on three pages from the base value 100, and on a first round. -/
theorem createPageProcessingPromises_offsets_witness :
    (createPageProcessingPromises [0, 1, 2] 100).1 = [(0, 100), (1, 150), (2, 200)] ∧
      (createPageProcessingPromises [0, 1, 2] 100).2 = 250 ∧
      (runRound initialState ⟨true, [], true, true⟩).launched =
        [[0, 50, 100, 150, 200, 250, 300, 350, 400, 450]] :=
  have h := createPageProcessingPromises_offsets 100 [0, 1, 2]
  ⟨h.1, h.2.2.2.1, (h.2.2.2.2.2 initialState ⟨true, [], true, true⟩ rfl rfl).1⟩

/-- C6: across a whole run, which starts from `startIndex = 0`, the offsets
handed to the workers in round `k` are `500 * k + 50 * i` for `i = 0, ..., 9`;
in the order in which they are handed out the offsets increase strictly, so an
offset of a later round is greater than every offset of an earlier round and
no offset is handed out twice. -/
theorem run_offsets (launchOk : Bool) (inputs : List RoundInput) :
    (run launchOk inputs).launched =
        (List.range (run launchOk inputs).launched.length).map
          (fun k => (List.range 10).map fun i => 500 * k + 50 * i) ∧
      (run launchOk inputs).launched.flatten.Pairwise (· < ·) ∧
      (run launchOk inputs).launched.flatten.Nodup ∧
      (launchOk = true → (∀ r ∈ inputs, r.succeeds = true) →
        (run launchOk inputs).launched.length = inputs.length) := by
  have h := (run_invariant launchOk inputs).1
  have hp : (run launchOk inputs).launched.flatten.Pairwise (· < ·) := by
    rw [h]; exact allRounds_pairwise _
  have hlen : launchOk = true → (∀ r ∈ inputs, r.succeeds = true) →
      (run launchOk inputs).launched.length = inputs.length := by
    intro hl hall
    subst hl
    have := (runRounds_succeed inputs initialState rfl hall).2.2.1
    simpa [run, initialState] using this
  refine ⟨?_, hp, hp.imp (fun hlt => Nat.ne_of_lt hlt), hlen⟩
  conv_lhs => rw [h]
  apply List.map_congr_left
  intro k _
  simp only [roundOffsets, PAGE_LENGTH]
  apply List.map_congr_left
  intro i _
  ring

/-- C6 on a run of two rounds that succeed. -/
theorem run_offsets_witness :
    (run true [sampleRound, sampleRound]).launched =
      [[0, 50, 100, 150, 200, 250, 300, 350, 400, 450],
        [500, 550, 600, 650, 700, 750, 800, 850, 900, 950]] :=
  have h := run_offsets true [sampleRound, sampleRound]
  have hlen : (run true [sampleRound, sampleRound]).launched.length = 2 :=
    h.2.2.2 rfl (by decide)
  h.1.trans (by rw [hlen]; decide)

/-- C7: in `processPage`, when the extraction gives an empty (or absent) result
the call fails with the error `No data` and the store is unchanged; when it
gives a non-empty result the call succeeds and the store is the previous store
followed by the result, in its order. -/
theorem processPage_store_effect (load : PageLoad) (store : List Operation) :
    (extractOperations load = .ok [] →
        processPage load store = (.error (.error "No data"), store)) ∧
      (∀ o os, extractOperations load = .ok (o :: os) →
        processPage load store = (.ok (), store ++ o :: os)) ∧
      storeOperations store none = (.error (.error "No data"), store) ∧
      storeOperations store (some []) = (.error (.error "No data"), store) ∧
      ∀ o os, storeOperations store (some (o :: os)) = (.ok (), store ++ o :: os) := by
  refine ⟨?_, ?_, rfl, rfl, ?_⟩
  · intro h; simp [processPage, h, storeOperations]
  · intro o os h; simp [processPage, h, storeOperations]
  · intro o os; simp [storeOperations]

/-- C7 on a page whose table has no data row, and on a page with one. -/
theorem processPage_store_effect_witness :
    processPage ⟨true, [], some ⟨"TABLE", ⟨[["Account", "Transaction", "Amount"]]⟩⟩, []⟩
        [{ account := "Z" }] =
      (.error (.error "No data"), [{ account := "Z" }]) ∧
    processPage
        ⟨true, [], some ⟨"TABLE", ⟨[["Account", "Transaction", "Amount"], ["A", "T", "7EUR"]]⟩⟩,
          []⟩
        [{ account := "Z" }] =
      (.ok (), [{ account := "Z" },
        { account := "A", transaction := some "T", amount := some (.finite 7),
          currency := some "EUR" }]) :=
  ⟨(processPage_store_effect _ _).1 (by decide),
    (processPage_store_effect _ _).2.1 _ _ (by decide)⟩

/-- C8: in the run loop, while every round succeeds nothing is written and the
next round is scheduled; in the first round in which a worker cycle fails, the
store as it stands when the failure is observed (the records of the earlier
rounds and those pushed in the failing round) is written to `operations.json`
exactly once, the process exits with status 0 once the file is written, and no
further round is scheduled. -/
theorem run_until_failure (good : List RoundInput) (bad : RoundInput)
    (rest : List RoundInput)
    (hgood : ∀ r ∈ good, r.succeeds = true)
    (hpages : bad.pagesOk = true)
    (hfail : ∃ l ∈ bad.settled, cycleFulfilled l = false)
    (hwrite : bad.writeOk = true) :
    (run true good).status = .running ∧
      (run true good).written = [] ∧
      (run true good).launched.length = good.length ∧
      (run true good).store = (good.flatMap fun r => r.settled).flatMap cycleOperations ∧
      (run true (good ++ bad :: rest)).written =
        [(run true good).store ++ bad.settled.flatMap cycleOperations] ∧
      (run true (good ++ bad :: rest)).status = .exited 0 ∧
      (run true (good ++ bad :: rest)).launched.length = good.length + 1 := by
  obtain ⟨h1, h2, h3, h4⟩ := runRounds_succeed good initialState rfl hgood
  have h2 : (runRounds initialState good).written = [] := h2
  have h3 : (runRounds initialState good).launched.length = good.length := by
    rw [h3]; simp [initialState]
  have h4 : (runRounds initialState good).store =
      (good.flatMap fun r => r.settled).flatMap cycleOperations := by
    rw [h4]; simp [initialState]
  have hall : bad.settled.all cycleFulfilled = false := by
    obtain ⟨l, hl, hf⟩ := hfail
    rw [List.all_eq_false]
    exact ⟨l, hl, by simp [hf]⟩
  have hbad := runRound_fails (runRounds initialState good) bad h1 hpages hall hwrite
  have hrun : run true (good ++ bad :: rest) =
      runRound (runRounds initialState good) bad := by
    simp only [run, ↓reduceIte]
    rw [runRounds_append, runRounds_cons]
    apply runRounds_of_not_running
    rw [hbad]
    simp
  have hgoodrun : run true good = runRounds initialState good := by simp [run]
  rw [hrun, hgoodrun, hbad]
  refine ⟨h1, h2, h3, h4, ?_, rfl, ?_⟩
  · simp [h2]
  · simp [h3]

/-- C8 on a run of one round that succeeds and one round in which the second
cycle to settle finds no data. -/
theorem run_until_failure_witness :
    (∀ r ∈ [sampleRound], r.succeeds = true) ∧
      (∃ l ∈ failingRound.settled, cycleFulfilled l = false) ∧
      (run true [sampleRound]).status = .running ∧
      (run true [sampleRound]).written = [] ∧
      (run true ([sampleRound] ++ failingRound :: [sampleRound])).written =
        [(run true [sampleRound]).store ++ failingRound.settled.flatMap cycleOperations] ∧
      (run true ([sampleRound] ++ failingRound :: [sampleRound])).status = .exited 0 ∧
      (run true ([sampleRound] ++ failingRound :: [sampleRound])).launched.length = 2 :=
  have h := run_until_failure [sampleRound] failingRound [sampleRound]
    (by decide) rfl ⟨emptyPage, by decide, by decide⟩ rfl
  ⟨by decide, ⟨emptyPage, by decide, by decide⟩, h.1, h.2.1, h.2.2.2.2.1, h.2.2.2.2.2.1,
    h.2.2.2.2.2.2⟩

/-- C9: in `processPage`, when the located target has the tag name `IFRAME` the
records pushed to the store are those of `getTableOperations` on the first
table of the frame attached last, whatever tables the page's own document has;
when the target is not an `IFRAME` they are those of `getTableOperations` on
the target itself. -/
theorem processPage_target (load : PageLoad) (store : List Operation) :
    (∀ el fs f t ts, load.gotoOk = true → load.target = some el → el.tagName = "IFRAME" →
        load.attached = fs ++ [f] → f.tables = t :: ts →
        processPage load store =
          match getTableOperations t with
          | .ok ops => storeOperations store (some ops)
          | .error e => (.error e, store)) ∧
      (∀ el, load.gotoOk = true → load.target = some el → el.tagName ≠ "IFRAME" →
        processPage load store =
          match getTableOperations el.table with
          | .ok ops => storeOperations store (some ops)
          | .error e => (.error e, store)) := by
  constructor
  · intro el fs f t ts h1 h2 h3 h4 h5
    simp only [processPage, extractOperations, h1, h2, h3, h4, lastFrame_append, frameEval, h5,
      ↓reduceIte]
    cases getTableOperations t <;> rfl
  · intro el h1 h2 h3
    simp only [processPage, extractOperations, h1, h2, h3, ↓reduceIte]
    cases getTableOperations el.table <;> rfl

/-- C9 on a page whose target is an iframe and whose own document has a table
too, and on a page whose target is a table. -/
theorem processPage_target_witness :
    processPage framedPage [] =
        (.ok (), [{ account := "A", transaction := some "T", amount := some (.finite 7),
                    currency := some "EUR" }]) ∧
      processPage samplePage [] =
        (.ok (), [{ account := "Checking", transaction := some "Transaction 1",
                    amount := some (.finite 123), currency := some "USD" }]) :=
  ⟨(processPage_target framedPage []).1 _ [⟨[]⟩]
      ⟨[⟨[["Account", "Transaction", "Amount"], ["A", "T", "7EUR"]]⟩]⟩
      ⟨[["Account", "Transaction", "Amount"], ["A", "T", "7EUR"]]⟩ [] rfl rfl rfl rfl rfl,
    (processPage_target samplePage []).2 _ rfl rfl (by decide)⟩

end Bankin
